import Mathlib

/-!
Verification of the `BaseOptimizer` bookkeeping in `main/optimizer.py` and the
`DoG_Gen_Optimizer` glue in `main/dog_gen/run.py`.

The Python `mol_buffer` dict (insertion ordered, keyed by SMILES strings, values
`[score, rank]`) is embedded as an association list of entries.  Scores (Python
floats that are only ever compared and averaged here) are embedded as rationals.
Python's stable `sorted(..., key=..., reverse=...)` is embedded as the stable
`List.mergeSort` with the corresponding boolean comparator.
-/

namespace MolOpt

abbrev Score := ℚ

/-- one `mol_buffer` item: the SMILES key together with its `[score, rank]` value. -/
abbrev Entry := String × Score × ℕ

/-- the `mol_buffer` dict, as an insertion-ordered association list. -/
abbrev Buffer := List Entry

def entryKey (e : Entry) : String := e.1

def entryScore (e : Entry) : Score := e.2.1

def entryRank (e : Entry) : ℕ := e.2.2

/-- the keys of the buffer, in stored order. -/
def bufKeys (b : Buffer) : List String := b.map entryKey

/-- dict access `self.mol_buffer[smi]`: the value stored at a key (dict keys are
unique, so first match suffices). -/
def lookupBuf (k : String) : Buffer → Option (Score × ℕ)
  | [] => none
  | e :: rest => if entryKey e = k then some e.2 else lookupBuf k rest

/-- comparator of `sort_buffer`: `key=lambda kv: kv[1][0], reverse=True`, i.e. a
stable sort that puts higher scores first. -/
def scoreDescLe (e₁ e₂ : Entry) : Bool := decide (entryScore e₂ ≤ entryScore e₁)

/-- comparator used by `log_result`: `key=lambda kv: kv[1][1], reverse=False`,
i.e. a stable sort by insertion rank ascending. -/
def rankAscLe (e₁ e₂ : Entry) : Bool := decide (entryRank e₁ ≤ entryRank e₂)

/-- BaseOptimizer.sort_buffer (optimizer.py line 52): rebuild `mol_buffer` sorted by
score, descending. -/
def sort_buffer (b : Buffer) : Buffer := b.mergeSort scoreDescLe

/-- result of one `score_mol` call: the new buffer, the returned score list, and
the SMILES keys on which `oracle_func` was invoked, in invocation order. -/
structure ScoreMolOut where
  buffer : Buffer
  scores : List Score
  oracleCalls : List String

/-- the for-loop of BaseOptimizer.score_mol (optimizer.py lines 56-66): for each
molecule, take the cached score if its SMILES is a key of the buffer, otherwise
invoke the oracle and insert `[score, len(mol_buffer) + 1]`. -/
def scoreMolLoop {α : Type} (molToSmiles : α → String) (oracle : String → Score) :
    Buffer → List α → ScoreMolOut
  | b, [] => ⟨b, [], []⟩
  | b, mol :: mols =>
    match lookupBuf (molToSmiles mol) b with
    | some v =>
      let out := scoreMolLoop molToSmiles oracle b mols
      ⟨out.buffer, v.1 :: out.scores, out.oracleCalls⟩
    | none =>
      let s := oracle (molToSmiles mol)
      let out := scoreMolLoop molToSmiles oracle
        (b ++ [(molToSmiles mol, s, b.length + 1)]) mols
      ⟨out.buffer, s :: out.scores, (molToSmiles mol) :: out.oracleCalls⟩

/-- BaseOptimizer.score_mol (optimizer.py lines 55-68): the loop above followed by
`self.sort_buffer()`. -/
def score_mol {α : Type} (molToSmiles : α → String) (oracle : String → Score)
    (b : Buffer) (mols : List α) : ScoreMolOut :=
  let out := scoreMolLoop molToSmiles oracle b mols
  ⟨sort_buffer out.buffer, out.scores, out.oracleCalls⟩

/-- repeated `score_mol` calls: how `mol_buffer` evolves across a sequence of
batches, starting from a given buffer. -/
def runScoreMol {α : Type} (f : α → String) (g : String → Score) :
    Buffer → List (List α) → Buffer
  | b, [] => b
  | b, ms :: rest => runScoreMol f g (score_mol f g b ms).buffer rest

/-- a buffer stores ranks positionally: the entry at index i holds rank i + 1.
This is the shape of the buffer in first-insertion order. -/
def ranksPositional (b : Buffer) : Prop :=
  ∀ (i : ℕ) (h : i < b.length), entryRank (b.get ⟨i, h⟩) = i + 1

/-- log_intermediate default branch (optimizer.py line 74):
`temp_top100 = list(self.mol_buffer.items())[:100]`. -/
def log_intermediate_top100 (b : Buffer) : Buffer := b.take 100

/-- the oracle-budget levels of log_result (optimizer.py line 97). -/
def log_num_oracles : List ℕ := [100, 500, 1000, 3000, 5000, 10000]

/-- log_result (optimizer.py lines 99-101): the buffer items ordered by insertion
rank ascending, truncated to 10000 entries when there are more than 10000. -/
def logResultResults (b : Buffer) : Buffer :=
  let results := b.mergeSort rankAscLe
  if 10000 < results.length then results.take 10000 else results

/-- log_result (optimizer.py lines 103-105): for each oracle-budget level n, the
first n of the truncated rank-ordered results, re-sorted by score descending. -/
def logResultLevels (b : Buffer) : List Buffer :=
  log_num_oracles.map (fun n => ((logResultResults b).take n).mergeSort scoreDescLe)

/-- Python exceptions relevant to these files. -/
inductive PyErr where
  | indexError
  | nameError
  | attributeError
deriving DecidableEq

/-- rows of the "Top 100 Molecules" table (optimizer.py lines 108-109), indexing
the given list at each index in turn: row i is
`[i+1, results_all_level[-1][i][1][0], results_all_level[-1][i][1][1], Image, results_all_level[-1][i][0]]`
(the wandb.Image of the drawn molecule is an external value and is omitted);
an index past the end of the list is an IndexError. -/
def top100Rows (l : Buffer) : List ℕ → Except PyErr (List (ℕ × Score × ℕ × String))
  | [] => .ok []
  | i :: rest =>
    match l[i]? with
    | none => .error .indexError
    | some e =>
      (top100Rows l rest).map (fun rows => (i + 1, entryScore e, entryRank e, entryKey e) :: rows)

/-- the top-100 table of log_result: built from `results_all_level[-1]` over
`for i in range(100)`. -/
def logResultTop100Rows (b : Buffer) : Except PyErr (List (ℕ × Score × ℕ × String)) :=
  top100Rows ((logResultLevels b).getLastD []) (List.range 100)

/-- np.mean: model the NaN produced on an empty list as `none`. -/
def npMean (l : List Score) : Option Score :=
  if l.isEmpty then none else some (l.sum / l.length)

/-- np.max: raises ValueError on an empty list, modelled as `none`. -/
def npMax (l : List Score) : Option Score := l.max?

/-- the seven metrics returned by _analyze_results, in order. -/
structure AnalyzeOut where
  avg_top100 : Option Score
  avg_top10 : Option Score
  top1 : Option Score
  diversity : Score
  avg_sa : Option Score
  percentPass : Score
  top1Pass : Option Score

/-- BaseOptimizer._analyze_results (optimizer.py lines 129-141).  The external
evaluators are parameters: `filt` is the PAINS/SureChEMBL/Glaxo MolFilter
(`smis_pass = self.filter(smis)` keeps the passing SMILES in order), `sa` the
SA oracle applied per molecule, `div` the Diversity evaluator.  The Python
`scores_dict` comprehension over distinct keys is read back by `lookupBuf`.
`%Pass` is `float(len(smis_pass) / 100)`, denominator a constant 100; `Top-1
Pass` is np.max over the scores of the passing molecules. -/
def analyze_results (filt : String → Bool) (sa : String → Score)
    (div : List String → Score) (results : Buffer) : AnalyzeOut :=
  let res := results.take 100
  let smis := res.map entryKey
  let scores := res.map entryScore
  let smis_pass := smis.filter filt
  { avg_top100 := npMean scores
    avg_top10 := npMean (scores.take 10)
    top1 := npMax scores
    diversity := div smis
    avg_sa := npMean (smis.map sa)
    percentPass := (smis_pass.length : Score) / 100
    top1Pass := npMax (smis_pass.filterMap (fun s => (lookupBuf s res).map Prod.fst)) }

/-- log_result (optimizer.py lines 113-114): the batch-metrics table, one row
`[log_num_oracles[i]] + self._analyze_results(r)` per level. -/
def logResultBatchRows (filt : String → Bool) (sa : String → Score)
    (div : List String → Score) (b : Buffer) : List (ℕ × AnalyzeOut) :=
  (log_num_oracles.zip (logResultLevels b)).map
    (fun p => (p.1, analyze_results filt sa div p.2))

/-- os.path.flatten with a relative second component. -/
def os_path_join (d file : String) : String := d ++ "/" ++ file

/-- observable effect of save_result: the file path written, the list of entries
serialized into it in order, and the buffer the optimizer holds afterwards. -/
structure SaveResultOut where
  path : String
  dumped : Buffer
  buffer : Buffer

/-- BaseOptimizer.save_result (optimizer.py lines 118-127): choose the output
path from the suffix, `self.sort_buffer()`, then
`yaml.dump(self.mol_buffer, f, sort_keys=False)` — with `sort_keys=False` the
serializer writes the dict entries in their stored order. -/
def save_result (b : Buffer) (output_dir : String) (suffix : Option String) :
    SaveResultOut :=
  let path := match suffix with
    | none => os_path_join output_dir "results.yaml"
    | some s => os_path_join output_dir ("results_" ++ s ++ ".yaml")
  let sorted := sort_buffer b
  ⟨path, sorted, sorted⟩

/-- the fixed seed list of BaseOptimizer.production (optimizer.py line 170). -/
def seeds_primes : List ℕ :=
  [2, 3, 5, 7, 11, 13, 17, 19, 23, 29, 31, 37, 41, 43, 47, 53, 59, 61, 67, 71, 73, 79, 83, 89, 97]

/-- observable effects of one BaseOptimizer.optimize call: the seed it was given,
the buffer it started from, and the log_result / save_result artifacts. -/
structure OptimizeRun where
  seed : ℕ
  startBuffer : Buffer
  levels : List Buffer
  saved : SaveResultOut

/-- BaseOptimizer.optimize (optimizer.py lines 160-167), with `self._optimize`
abstracted as a buffer transformer `opt` depending on the numpy seed: run the
search, log_result, save_result with suffix
`self.model_name + "_" + oracle.name + "_" + str(seed)` (here `model_oracle`
is `model_name + "_" + oracle.name`), then `self.mol_buffer = {}`.  The wandb
run object is external and omitted. -/
def optimize (opt : ℕ → Buffer → Buffer) (output_dir model_oracle : String)
    (b : Buffer) (seed : ℕ) : OptimizeRun × Buffer :=
  let b₁ := opt seed b
  (⟨seed, b, logResultLevels b₁,
     save_result b₁ output_dir (some (model_oracle ++ "_" ++ toString seed))⟩, [])

/-- the seed loop of BaseOptimizer.production (optimizer.py lines 172-174): call
optimize (which ends by emptying the buffer), then `self.mol_buffer = {}` once
more, so the next iteration starts from the empty buffer. -/
def productionLoop (opt : ℕ → Buffer → Buffer) (output_dir model_oracle : String) :
    Buffer → List ℕ → List OptimizeRun × Buffer
  | b, [] => ([], b)
  | b, s :: rest =>
    let out := optimize opt output_dir model_oracle b s
    let rest_out := productionLoop opt output_dir model_oracle [] rest
    (out.1 :: rest_out.1, rest_out.2)

/-- BaseOptimizer.production (optimizer.py lines 169-174):
`seeds = seeds[:num_runs]`, then one optimize call per remaining seed. -/
def production (opt : ℕ → Buffer → Buffer) (output_dir model_oracle : String)
    (b : Buffer) (num_runs : ℕ) : List OptimizeRun × Buffer :=
  productionLoop opt output_dir model_oracle b (seeds_primes.take num_runs)

/-- Modelled from the spec: the module-scope names of main/optimizer.py.  They
come from its import statements; the star import `from main.utils.chem import *`
brings in chemistry helpers such as `canonicalize` (main/utils/chem.py is not
among the provided sources, and neither the spec nor optimizer.py gives it a
global named `smi_file`). -/
def optimizer_module_globals : List String :=
  ["json", "os", "joblib", "yaml", "np", "delayed", "Chem", "Draw", "tdc",
   "MolGen", "wandb", "canonicalize", "BaseOptimizer"]

/-- BaseOptimizer.load_smiles_from_file (optimizer.py lines 34-36): the body is
`with open(smi_file) as f`, referring to the bare name `smi_file`, not to the
`file_name` parameter; the name is looked up among the module globals and is
absent, so the call raises NameError.  `onResolved` stands for the body that
would run if the name did resolve (reading that file and canonicalizing each
line); it is never reached. -/
def load_smiles_from_file (onResolved : Unit → List String) (file_name : String) :
    Except PyErr (List String) :=
  if "smi_file" ∈ optimizer_module_globals then .ok (onResolved ())
  else .error .nameError

/-- the argparse fields of args that optimizer.py reads. -/
structure OptArgs where
  n_jobs : ℕ
  smi_file : Option String
  output_dir : String

/-- the attributes BaseOptimizer.__init__ stores that the modelled code later
reads.  `oracle : Option Unit` records whether an attribute named `oracle`
exists on the object: `__init__` never assigns one. -/
structure BaseOptimizerState where
  model_name : String
  mol_buffer : Buffer
  all_smiles : List String
  oracle : Option Unit
deriving DecidableEq

/-- BaseOptimizer.__init__ (optimizer.py lines 17-32): `mol_buffer = {}`; when
`args.smi_file` is set, `all_smiles` comes from load_smiles_from_file, else
from the ZINC download (`zinc`, an external dataset).  No attribute named
`oracle` is ever assigned.  (pool, sa_scorer, diversity_evaluator and filter
wrap external libraries and carry no state the modelled code reads.) -/
def base_init (zinc : List String) (onResolved : Unit → List String) (args : OptArgs) :
    Except PyErr BaseOptimizerState :=
  match args.smi_file with
  | some f =>
    (load_smiles_from_file onResolved f).map (fun smis => ⟨"Default", [], smis, none⟩)
  | none => .ok ⟨"Default", [], zinc, none⟩

/-- the wandb config keys DoG_Gen_Optimizer._optimize reads (run.py line 141). -/
structure DogGenConfig where
  n_rounds : ℕ
  n_samples_per_round : ℕ
  n_samples_to_keep_per_round : ℕ

/-- doggen_utils.DogGenHillclimbingParams as constructed on run.py line 141. -/
structure DogGenHillclimbingParams where
  n_rounds : ℕ
  n_samples_per_round : ℕ
  n_samples_to_keep_per_round : ℕ
deriving DecidableEq

/-- the directory of main/dog_gen/run.py: its `path_here` (run.py line 49). -/
def path_here : String := "main/dog_gen"

/-- run.py line 95: the checkpoint path handed to `Params` and
`doggen_utils.load_doggen_model`. -/
def dog_gen_weight_path : String :=
  os_path_join path_here "scripts/dog_gen/chkpts/doggen_weights.pth.pick"

/-- trace of one DoG_Gen_Optimizer._optimize call: what the glue would hand to
the external `doggen_utils` machinery (τ is the tuple-tree type produced by the
external `train_utils.load_tuple_trees`). -/
structure DogGenTrace (τ : Type) where
  weight_path : String
  hparams : DogGenHillclimbingParams
  hillclimb_trees : List τ

/-- DoG_Gen_Optimizer.__init__ (run.py lines 83-85): BaseOptimizer.__init__ then
`self.model_name = "dog_gen"`. -/
def dog_gen_init (zinc : List String) (onResolved : Unit → List String) (args : OptArgs) :
    Except PyErr BaseOptimizerState :=
  (base_init zinc onResolved args).map (fun st => { st with model_name := "dog_gen" })

/-- DoG_Gen_Optimizer._optimize (run.py lines 87-152).  Its first statement is
`self.oracle.assign_evaluator(oracle)`: reading the attribute `oracle`, which
`__init__` never assigned, raises AttributeError.  Were the attribute present,
the glue would load the train and valid tuple-trees (externals `load_train`,
`load_valid`), concatenate them, load the model from `dog_gen_weight_path`,
build DogGenHillclimbingParams from the three config keys, and delegate to
`doggen_utils.DogGenHillclimber(...).run_hillclimbing` on the combined trees;
the returned trace records exactly these hand-offs. -/
def dog_gen_optimize {τ : Type} (load_train load_valid : Unit → List τ)
    (st : BaseOptimizerState) (config : DogGenConfig) : Except PyErr (DogGenTrace τ) :=
  match st.oracle with
  | none => .error .attributeError
  | some _ =>
    let train_trees := load_train () ++ load_valid ()
    let hparams : DogGenHillclimbingParams :=
      ⟨config.n_rounds, config.n_samples_per_round, config.n_samples_to_keep_per_round⟩
    .ok ⟨dog_gen_weight_path, hparams, train_trees⟩

/-! Basic lemmas about `lookupBuf` and `bufKeys`. -/

theorem bufKeys_append (b₁ b₂ : Buffer) : bufKeys (b₁ ++ b₂) = bufKeys b₁ ++ bufKeys b₂ :=
  List.map_append _ _ _

theorem lookupBuf_eq_none_iff (k : String) (b : Buffer) :
    lookupBuf k b = none ↔ k ∉ bufKeys b := by
  induction b with
  | nil => simp [lookupBuf, bufKeys]
  | cons e rest ih =>
    by_cases h : entryKey e = k <;> simp [lookupBuf, bufKeys, h] at ih ⊢ <;> tauto

theorem lookupBuf_append_left {k : String} {b : Buffer} {v : Score × ℕ}
    (h : lookupBuf k b = some v) (b' : Buffer) : lookupBuf k (b ++ b') = some v := by
  induction b with
  | nil => simp [lookupBuf] at h
  | cons e rest ih =>
    by_cases he : entryKey e = k <;> simp [lookupBuf, he] at h ⊢ <;> tauto

theorem lookupBuf_append_right {k : String} {b : Buffer}
    (h : lookupBuf k b = none) (b' : Buffer) : lookupBuf k (b ++ b') = lookupBuf k b' := by
  induction b with
  | nil => simp
  | cons e rest ih =>
    by_cases he : entryKey e = k <;> simp [lookupBuf, he] at h ⊢ <;> tauto

theorem lookupBuf_perm {b₁ b₂ : Buffer} (hp : b₁.Perm b₂) (hn : (bufKeys b₁).Nodup)
    (k : String) : lookupBuf k b₁ = lookupBuf k b₂ := by
  induction hp with
  | nil => rfl
  | cons e _ ih =>
    simp [bufKeys] at hn
    by_cases he : entryKey e = k <;> simp [lookupBuf, he, ih hn.2]
  | swap e₁ e₂ rest =>
    simp [bufKeys] at hn
    by_cases h₁ : entryKey e₁ = k <;> by_cases h₂ : entryKey e₂ = k <;>
      simp [lookupBuf, h₁, h₂]
    exact absurd (h₂.trans h₁.symm) hn.1.1
  | trans p₁ p₂ ih₁ ih₂ =>
    refine (ih₁ hn).trans (ih₂ ?_)
    exact ((p₁.map entryKey).nodup_iff).mp hn

theorem bufKeys_sort_buffer_perm (b : Buffer) : (bufKeys (sort_buffer b)).Perm (bufKeys b) :=
  (b.mergeSort_perm scoreDescLe).map entryKey

theorem lookupBuf_sort_buffer (b : Buffer) (hn : (bufKeys b).Nodup) (k : String) :
    lookupBuf k (sort_buffer b) = lookupBuf k b :=
  lookupBuf_perm (b.mergeSort_perm scoreDescLe) ((bufKeys_sort_buffer_perm b).nodup_iff.mpr hn) k

/-! Invariants of the `score_mol` loop. -/

theorem bufKeys_nodup_insert {b : Buffer} (hb : (bufKeys b).Nodup) {k : String}
    (hk : k ∉ bufKeys b) (s : Score) (r : ℕ) :
    (bufKeys (b ++ [(k, s, r)])).Nodup := by
  rw [bufKeys_append, List.nodup_append]
  refine ⟨hb, List.nodup_singleton k, fun a ha hmem => ?_⟩
  simp [bufKeys, entryKey] at hmem
  subst hmem
  exact hk ha

theorem scoreMolLoop_keys {α : Type} (f : α → String) (g : String → Score) :
    ∀ (mols : List α) (b : Buffer),
      bufKeys (scoreMolLoop f g b mols).buffer =
        bufKeys b ++ (scoreMolLoop f g b mols).oracleCalls := by
  intro mols
  induction mols with
  | nil => intro b; simp [scoreMolLoop]
  | cons m rest ih =>
    intro b
    cases h : lookupBuf (f m) b with
    | some v => simp [scoreMolLoop, h, ih b]
    | none =>
      simp only [scoreMolLoop, h]
      rw [ih, bufKeys_append]
      simp [bufKeys, entryKey]

theorem scoreMolLoop_nodup_keys {α : Type} (f : α → String) (g : String → Score) :
    ∀ (mols : List α) (b : Buffer), (bufKeys b).Nodup →
      (bufKeys (scoreMolLoop f g b mols).buffer).Nodup := by
  intro mols
  induction mols with
  | nil => intro b hb; simpa [scoreMolLoop] using hb
  | cons m rest ih =>
    intro b hb
    cases h : lookupBuf (f m) b with
    | some v => simpa [scoreMolLoop, h] using ih b hb
    | none =>
      simp only [scoreMolLoop, h]
      exact ih _ (bufKeys_nodup_insert hb ((lookupBuf_eq_none_iff _ _).mp h) _ _)

theorem scoreMolLoop_preserves_lookup {α : Type} (f : α → String) (g : String → Score) :
    ∀ (mols : List α) (b : Buffer) (k : String) (v : Score × ℕ),
      lookupBuf k b = some v →
      lookupBuf k (scoreMolLoop f g b mols).buffer = some v := by
  intro mols
  induction mols with
  | nil => intro b k v hv; simpa [scoreMolLoop] using hv
  | cons m rest ih =>
    intro b k v hv
    cases h : lookupBuf (f m) b with
    | some w => simpa [scoreMolLoop, h] using ih b k v hv
    | none =>
      simp only [scoreMolLoop, h]
      exact ih _ k v (lookupBuf_append_left hv _)

theorem scoreMolLoop_scores_length {α : Type} (f : α → String) (g : String → Score) :
    ∀ (mols : List α) (b : Buffer),
      (scoreMolLoop f g b mols).scores.length = mols.length := by
  intro mols
  induction mols with
  | nil => intro b; simp [scoreMolLoop]
  | cons m rest ih =>
    intro b
    cases h : lookupBuf (f m) b with
    | some v => simp [scoreMolLoop, h, ih]
    | none => simp [scoreMolLoop, h, ih]

theorem scoreMolLoop_zip_lookup {α : Type} (f : α → String) (g : String → Score) :
    ∀ (mols : List α) (b : Buffer), (bufKeys b).Nodup →
      ∀ p ∈ mols.zip (scoreMolLoop f g b mols).scores,
        ∃ r, lookupBuf (f p.1) (scoreMolLoop f g b mols).buffer = some (p.2, r) := by
  intro mols
  induction mols with
  | nil => intro b _ p hp; simp [scoreMolLoop] at hp
  | cons m rest ih =>
    intro b hb p hp
    cases h : lookupBuf (f m) b with
    | some v =>
      simp only [scoreMolLoop, h, List.zip_cons_cons, List.mem_cons] at hp ⊢
      rcases hp with hp | hp
      · subst hp
        exact ⟨v.2, scoreMolLoop_preserves_lookup f g rest b _ _ h⟩
      · exact ih b hb p hp
    | none =>
      simp only [scoreMolLoop, h, List.zip_cons_cons, List.mem_cons] at hp ⊢
      have hb' : (bufKeys (b ++ [(f m, g (f m), b.length + 1)])).Nodup :=
        bufKeys_nodup_insert hb ((lookupBuf_eq_none_iff _ _).mp h) _ _
      rcases hp with hp | hp
      · subst hp
        refine ⟨b.length + 1, scoreMolLoop_preserves_lookup f g rest _ _ _ ?_⟩
        rw [lookupBuf_append_right h]
        simp [lookupBuf, entryKey]
      · exact ih _ hb' p hp

/-- the oracle-call log of `score_mol` has no duplicate key and avoids every key
already cached in the starting buffer. -/
theorem score_mol_calls (α : Type) (f : α → String) (g : String → Score)
    (b : Buffer) (mols : List α) (hb : (bufKeys b).Nodup) :
    (score_mol f g b mols).oracleCalls.Nodup ∧
      ∀ k ∈ (score_mol f g b mols).oracleCalls, k ∉ bufKeys b := by
  have hkeys := scoreMolLoop_keys f g mols b
  have hnodup := scoreMolLoop_nodup_keys f g mols b hb
  rw [hkeys, List.nodup_append] at hnodup
  refine ⟨hnodup.2.1, fun k hk hkb => ?_⟩
  exact hnodup.2.2 hkb hk

/-- C1: deduplicating score cache.  For every molecule list passed to
`BaseOptimizer.score_mol` (over a buffer with distinct keys), the oracle is
invoked at most once per distinct SMILES key (the invocation log has no
duplicates) and never on a key already cached; every entry cached before the
call is still present unchanged afterwards; the returned score list has one
entry per input molecule in input order (it zips with the input), each returned
score being the score the final buffer holds for that molecule's SMILES; and a
molecule whose SMILES was already a key receives exactly the cached score, the
first element of the stored pair. -/
theorem score_mol_dedup_cache {α : Type} (f : α → String) (g : String → Score)
    (b : Buffer) (mols : List α) (hb : (bufKeys b).Nodup) :
    (score_mol f g b mols).oracleCalls.Nodup
    ∧ (∀ k ∈ (score_mol f g b mols).oracleCalls, k ∉ bufKeys b)
    ∧ (∀ k v, lookupBuf k b = some v → lookupBuf k (score_mol f g b mols).buffer = some v)
    ∧ (score_mol f g b mols).scores.length = mols.length
    ∧ (∀ p ∈ mols.zip (score_mol f g b mols).scores,
        ∃ r, lookupBuf (f p.1) (score_mol f g b mols).buffer = some (p.2, r))
    ∧ (∀ p ∈ mols.zip (score_mol f g b mols).scores,
        ∀ v, lookupBuf (f p.1) b = some v → p.2 = v.1) := by
  have hn := scoreMolLoop_nodup_keys f g mols b hb
  have hsort : ∀ k, lookupBuf k (score_mol f g b mols).buffer =
      lookupBuf k (scoreMolLoop f g b mols).buffer :=
    fun k => lookupBuf_sort_buffer _ hn k
  have hpres : ∀ k v, lookupBuf k b = some v →
      lookupBuf k (score_mol f g b mols).buffer = some v := by
    intro k v hv
    rw [hsort]
    exact scoreMolLoop_preserves_lookup f g mols b k v hv
  have hzip : ∀ p ∈ mols.zip (score_mol f g b mols).scores,
      ∃ r, lookupBuf (f p.1) (score_mol f g b mols).buffer = some (p.2, r) := by
    intro p hp
    rw [hsort]
    exact scoreMolLoop_zip_lookup f g mols b hb p hp
  refine ⟨(score_mol_calls α f g b mols hb).1, (score_mol_calls α f g b mols hb).2,
    hpres, scoreMolLoop_scores_length f g mols b, hzip, ?_⟩
  intro p hp v hv
  obtain ⟨r, hr⟩ := hzip p hp
  have := (hpres _ v hv).symm.trans hr
  exact (congrArg Prod.fst (Option.some.inj this)).symm

/-- witness for C1 at a concrete buffer holding one cached molecule and a call
scoring that molecule together with a fresh one. -/
theorem score_mol_dedup_cache_witness :
    (bufKeys [("CC", (1 : Score)/2, 1)]).Nodup
    ∧ ((score_mol id (fun _ => (0 : Score)) [("CC", (1 : Score)/2, 1)] ["CC", "O"]).oracleCalls.Nodup
      ∧ (∀ k ∈ (score_mol id (fun _ => (0 : Score)) [("CC", (1 : Score)/2, 1)] ["CC", "O"]).oracleCalls,
          k ∉ bufKeys [("CC", (1 : Score)/2, 1)])
      ∧ (∀ k v, lookupBuf k [("CC", (1 : Score)/2, 1)] = some v →
          lookupBuf k (score_mol id (fun _ => (0 : Score)) [("CC", (1 : Score)/2, 1)] ["CC", "O"]).buffer = some v)
      ∧ (score_mol id (fun _ => (0 : Score)) [("CC", (1 : Score)/2, 1)] ["CC", "O"]).scores.length =
          (["CC", "O"] : List String).length
      ∧ (∀ p ∈ (["CC", "O"] : List String).zip
            (score_mol id (fun _ => (0 : Score)) [("CC", (1 : Score)/2, 1)] ["CC", "O"]).scores,
          ∃ r, lookupBuf (id p.1)
            (score_mol id (fun _ => (0 : Score)) [("CC", (1 : Score)/2, 1)] ["CC", "O"]).buffer = some (p.2, r))
      ∧ (∀ p ∈ (["CC", "O"] : List String).zip
            (score_mol id (fun _ => (0 : Score)) [("CC", (1 : Score)/2, 1)] ["CC", "O"]).scores,
          ∀ v, lookupBuf (id p.1) [("CC", (1 : Score)/2, 1)] = some v → p.2 = v.1)) :=
  ⟨by decide, score_mol_dedup_cache id (fun _ => (0 : Score)) [("CC", (1 : Score)/2, 1)]
    ["CC", "O"] (by decide)⟩

/-! Comparator facts and sortedness of `sort_buffer`. -/

theorem scoreDescLe_trans : ∀ a b c : Entry, scoreDescLe a b → scoreDescLe b c → scoreDescLe a c := by
  intro a b c hab hbc
  simp only [scoreDescLe, decide_eq_true_eq] at hab hbc ⊢
  exact hbc.trans hab

theorem scoreDescLe_total : ∀ a b : Entry, scoreDescLe a b || scoreDescLe b a := by
  intro a b
  simp only [scoreDescLe, Bool.or_eq_true, decide_eq_true_eq]
  exact le_total _ _

theorem rankAscLe_trans : ∀ a b c : Entry, rankAscLe a b → rankAscLe b c → rankAscLe a c := by
  intro a b c hab hbc
  simp only [rankAscLe, decide_eq_true_eq] at hab hbc ⊢
  omega

theorem rankAscLe_total : ∀ a b : Entry, rankAscLe a b || rankAscLe b a := by
  intro a b
  simp only [rankAscLe, Bool.or_eq_true, decide_eq_true_eq]
  omega

theorem sort_buffer_perm (b : Buffer) : (sort_buffer b).Perm b :=
  b.mergeSort_perm scoreDescLe

theorem sort_buffer_sorted (b : Buffer) :
    (sort_buffer b).Pairwise (fun e₁ e₂ => entryScore e₂ ≤ entryScore e₁) := by
  have h := List.sorted_mergeSort scoreDescLe_trans scoreDescLe_total b
  exact h.imp (by simp only [scoreDescLe, decide_eq_true_eq]; exact fun h => h)

theorem sorted_by_rank_of_mergeSort (b : Buffer) :
    (b.mergeSort rankAscLe).Pairwise (fun e₁ e₂ => entryRank e₁ ≤ entryRank e₂) := by
  have h := List.sorted_mergeSort rankAscLe_trans rankAscLe_total b
  exact h.imp (by simp only [rankAscLe, decide_eq_true_eq]; exact fun h => h)

/-- C5: sort_buffer correctness.  `BaseOptimizer.sort_buffer` rebuilds the buffer
as a permutation of its entries (no association added, removed or modified),
its scores are non-increasing from front to back, and applying it twice gives
the same buffer as applying it once. -/
theorem sort_buffer_correct (b : Buffer) :
    (sort_buffer b).Perm b
    ∧ (sort_buffer b).Pairwise (fun e₁ e₂ => entryScore e₂ ≤ entryScore e₁)
    ∧ sort_buffer (sort_buffer b) = sort_buffer b :=
  ⟨sort_buffer_perm b, sort_buffer_sorted b,
    List.mergeSort_of_sorted (List.sorted_mergeSort scoreDescLe_trans scoreDescLe_total b)⟩

/-- C3: re-sorted on read.  `score_mol`, the only operation that fills the
buffer, leaves it sorted by score descending, so any later read observes
descending score order; consequently `log_intermediate`'s first-100 slice of
that buffer scores at least as high as everything it cuts off (it is the
100 highest-scoring molecules); `save_result` serializes the entries after
re-sorting them by score descending; and `log_result` reads the entries through
its own sort, in ascending insertion-rank order. -/
theorem buffer_sorted_on_read {α : Type} (f : α → String) (g : String → Score)
    (b : Buffer) (mols : List α) :
    ((score_mol f g b mols).buffer.Pairwise (fun e₁ e₂ => entryScore e₂ ≤ entryScore e₁))
    ∧ (∀ e ∈ log_intermediate_top100 (score_mol f g b mols).buffer,
        ∀ e' ∈ (score_mol f g b mols).buffer.drop 100, entryScore e' ≤ entryScore e)
    ∧ (∀ (c : Buffer) (dir : String) (suffix : Option String),
        (save_result c dir suffix).dumped.Pairwise (fun e₁ e₂ => entryScore e₂ ≤ entryScore e₁))
    ∧ (∀ c : Buffer, (logResultResults c).Pairwise (fun e₁ e₂ => entryRank e₁ ≤ entryRank e₂)) := by
  refine ⟨sort_buffer_sorted _, ?_, fun c dir suffix => sort_buffer_sorted c, ?_⟩
  · intro e he e' he'
    have hs := sort_buffer_sorted (scoreMolLoop f g b mols).buffer
    have hsplit :
        (score_mol f g b mols).buffer =
          (score_mol f g b mols).buffer.take 100 ++ (score_mol f g b mols).buffer.drop 100 :=
      (List.take_append_drop 100 _).symm
    rw [show (score_mol f g b mols).buffer = sort_buffer (scoreMolLoop f g b mols).buffer from rfl]
      at hsplit he he'
    rw [hsplit] at hs
    exact (List.pairwise_append.mp hs).2.2 e he e' he'
  · intro c
    unfold logResultResults
    by_cases h : 10000 < (c.mergeSort rankAscLe).length
    · simp only [h, if_true]
      exact (sorted_by_rank_of_mergeSort c).sublist (List.take_sublist _ _)
    · simp only [h, if_false]
      exact sorted_by_rank_of_mergeSort c

/-- C4: bounded top-k aggregation.  `log_result` orders the buffer by insertion
rank ascending, truncates to the first 10000 entries, and each oracle-budget
level n in [100, 500, 1000, 3000, 5000, 10000] is the first n entries of that
truncated list re-sorted by score descending; the batch-metrics table rows are
computed from exactly these prefixes. -/
theorem log_result_levels_spec (filt : String → Bool) (sa : String → Score)
    (div : List String → Score) (b : Buffer) :
    logResultLevels b =
      log_num_oracles.map
        (fun n => (((b.mergeSort rankAscLe).take 10000).take n).mergeSort scoreDescLe)
    ∧ logResultBatchRows filt sa div b =
      log_num_oracles.map
        (fun n => (n, analyze_results filt sa div
          ((((b.mergeSort rankAscLe).take 10000).take n).mergeSort scoreDescLe))) := by
  have hres : logResultResults b = (b.mergeSort rankAscLe).take 10000 := by
    unfold logResultResults
    by_cases h : 10000 < (b.mergeSort rankAscLe).length
    · simp [h]
    · simp only [h, if_false]
      exact (List.take_of_length_le (by omega)).symm
  have hlev : logResultLevels b =
      log_num_oracles.map
        (fun n => (((b.mergeSort rankAscLe).take 10000).take n).mergeSort scoreDescLe) := by
    unfold logResultLevels
    rw [hres]
  refine ⟨hlev, ?_⟩
  unfold logResultBatchRows
  rw [hlev]
  rw [List.zip_map_right, List.map_map]
  rfl

/-- C6: result serialization.  save_result resolves the output path to
output_dir/results.yaml when the suffix is absent and to
output_dir/results_<suffix>.yaml otherwise, serializes the whole buffer sorted
by score descending in exactly that stored order (the serializer does not
re-sort the keys: the dumped list is the sorted buffer itself), and afterwards
the buffer holds the same set of associations it held before. -/
theorem save_result_spec (b : Buffer) (dir : String) :
    (save_result b dir none).path = dir ++ "/" ++ "results.yaml"
    ∧ (∀ s : String, (save_result b dir (some s)).path = dir ++ "/" ++ "results_" ++ s ++ ".yaml")
    ∧ (∀ suffix : Option String, (save_result b dir suffix).dumped = sort_buffer b)
    ∧ (∀ suffix : Option String, (save_result b dir suffix).dumped.Perm b)
    ∧ (∀ suffix : Option String,
        (save_result b dir suffix).dumped.Pairwise (fun e₁ e₂ => entryScore e₂ ≤ entryScore e₁))
    ∧ (∀ suffix : Option String, (save_result b dir suffix).buffer.Perm b) := by
  refine ⟨rfl, fun s => ?_, fun _ => rfl, fun _ => sort_buffer_perm b,
    fun _ => sort_buffer_sorted b, fun _ => sort_buffer_perm b⟩
  show dir ++ "/" ++ ("results_" ++ s ++ ".yaml") = dir ++ "/" ++ "results_" ++ s ++ ".yaml"
  simp only [String.append_assoc]

/-! The insertion-rank invariant (C2). -/

theorem scoreMolLoop_buffer_append {α : Type} (f : α → String) (g : String → Score) :
    ∀ (ms₁ ms₂ : List α) (b : Buffer),
      (scoreMolLoop f g b (ms₁ ++ ms₂)).buffer =
        (scoreMolLoop f g (scoreMolLoop f g b ms₁).buffer ms₂).buffer := by
  intro ms₁
  induction ms₁ with
  | nil => intro ms₂ b; simp [scoreMolLoop]
  | cons m rest ih =>
    intro ms₂ b
    cases h : lookupBuf (f m) b with
    | some v => simp [scoreMolLoop, h, ih]
    | none => simp [scoreMolLoop, h, ih]

theorem scoreMolLoop_buffer_perm {α : Type} (f : α → String) (g : String → Score) :
    ∀ (ms : List α) (b₁ b₂ : Buffer), b₁.Perm b₂ → (bufKeys b₁).Nodup →
      (scoreMolLoop f g b₁ ms).buffer.Perm (scoreMolLoop f g b₂ ms).buffer := by
  intro ms
  induction ms with
  | nil => intro b₁ b₂ hp _; simpa [scoreMolLoop] using hp
  | cons m rest ih =>
    intro b₁ b₂ hp hn
    have hlook : lookupBuf (f m) b₁ = lookupBuf (f m) b₂ := lookupBuf_perm hp hn _
    cases h : lookupBuf (f m) b₁ with
    | some v =>
      simp only [scoreMolLoop, h, hlook.symm.trans h]
      exact ih b₁ b₂ hp hn
    | none =>
      simp only [scoreMolLoop, h, hlook.symm.trans h]
      rw [hp.length_eq]
      refine ih _ _ (hp.append_right _) ?_
      have hlen := hp.length_eq
      rw [← hlen]
      exact bufKeys_nodup_insert hn ((lookupBuf_eq_none_iff _ _).mp h) _ _

theorem ranksPositional_nil : ranksPositional [] := by
  intro i h
  simp at h

theorem ranksPositional_insert {b : Buffer} (hb : ranksPositional b) (k : String) (s : Score) :
    ranksPositional (b ++ [(k, s, b.length + 1)]) := by
  intro i h
  simp only [List.get_eq_getElem] at hb ⊢
  rcases Nat.lt_or_ge i b.length with hi | hi
  · rw [List.getElem_append_left hi]
    exact hb i hi
  · have hlen : i = b.length := by
      simp at h
      omega
    subst hlen
    rw [List.getElem_append_right (Nat.le_refl _)]
    simp [entryRank]

theorem ranksPositional_loop {α : Type} (f : α → String) (g : String → Score) :
    ∀ (ms : List α) (b : Buffer), ranksPositional b →
      ranksPositional (scoreMolLoop f g b ms).buffer := by
  intro ms
  induction ms with
  | nil => intro b hb; simpa [scoreMolLoop] using hb
  | cons m rest ih =>
    intro b hb
    cases h : lookupBuf (f m) b with
    | some v => simpa [scoreMolLoop, h] using ih b hb
    | none =>
      simp only [scoreMolLoop, h]
      exact ih _ (ranksPositional_insert hb _ _)

theorem map_rank_of_positional {b : Buffer} (hb : ranksPositional b) :
    b.map entryRank = List.range' 1 b.length := by
  apply List.ext_getElem
  · simp [List.length_range']
  · intro i h₁ h₂
    simp only [List.getElem_map, List.getElem_range'_1]
    have := hb i (by simpa using h₁)
    simp only [List.get_eq_getElem] at this
    omega

theorem pairwise_rank_of_positional {b : Buffer} (hb : ranksPositional b) :
    b.Pairwise (fun e₁ e₂ => entryRank e₁ ≤ entryRank e₂) := by
  rw [List.pairwise_iff_getElem]
  intro i j hi hj hij
  have h₁ := hb i hi
  have h₂ := hb j hj
  simp only [List.get_eq_getElem] at h₁ h₂
  omega

theorem runScoreMol_perm_loop {α : Type} (f : α → String) (g : String → Score) :
    ∀ (batches : List (List α)) (b₁ b₂ : Buffer), b₁.Perm b₂ → (bufKeys b₁).Nodup →
      (runScoreMol f g b₁ batches).Perm (scoreMolLoop f g b₂ batches.flatten).buffer := by
  intro batches
  induction batches with
  | nil => intro b₁ b₂ hp _; simpa [runScoreMol, scoreMolLoop] using hp
  | cons ms rest ih =>
    intro b₁ b₂ hp hn
    have hperm₁ : (score_mol f g b₁ ms).buffer.Perm (scoreMolLoop f g b₂ ms).buffer :=
      (sort_buffer_perm (scoreMolLoop f g b₁ ms).buffer).trans
        (scoreMolLoop_buffer_perm f g ms b₁ b₂ hp hn)
    have hn₁ : (bufKeys (score_mol f g b₁ ms).buffer).Nodup := by
      have hk : (bufKeys (score_mol f g b₁ ms).buffer).Perm
          (bufKeys (scoreMolLoop f g b₁ ms).buffer) :=
        (sort_buffer_perm (scoreMolLoop f g b₁ ms).buffer).map entryKey
      exact hk.nodup_iff.mpr (scoreMolLoop_nodup_keys f g ms b₁ hn)
    have h₁ : (runScoreMol f g (score_mol f g b₁ ms).buffer rest).Perm
        (scoreMolLoop f g (scoreMolLoop f g b₂ ms).buffer rest.flatten).buffer :=
      ih (score_mol f g b₁ ms).buffer (scoreMolLoop f g b₂ ms).buffer hperm₁ hn₁
    have h₂ : (scoreMolLoop f g (scoreMolLoop f g b₂ ms).buffer rest.flatten).buffer =
        (scoreMolLoop f g b₂ ((ms :: rest).flatten)).buffer := by
      rw [List.flatten_cons, scoreMolLoop_buffer_append]
    exact h₂ ▸ h₁

theorem eq_of_perm_rank_sorted : ∀ (l₁ l₂ : Buffer), l₁.Perm l₂ →
    l₁.Pairwise (fun e₁ e₂ => entryRank e₁ ≤ entryRank e₂) →
    l₂.Pairwise (fun e₁ e₂ => entryRank e₁ ≤ entryRank e₂) →
    (l₁.map entryRank).Nodup → l₁ = l₂ := by
  intro l₁
  induction l₁ with
  | nil =>
    intro l₂ hp _ _ _
    exact (hp.symm.eq_nil).symm
  | cons a t₁ ih =>
    intro l₂ hp hs₁ hs₂ hn
    cases l₂ with
    | nil => exact absurd hp.eq_nil (by simp)
    | cons c t₂ =>
      have hs₁' := List.pairwise_cons.mp hs₁
      have hs₂' := List.pairwise_cons.mp hs₂
      have hmem_a : a ∈ c :: t₂ := hp.subset (List.mem_cons_self a t₁)
      have hmem_c : c ∈ a :: t₁ := hp.symm.subset (List.mem_cons_self c t₂)
      have hac : a = c := by
        rcases List.mem_cons.mp hmem_a with h | ha
        · exact h
        rcases List.mem_cons.mp hmem_c with h | hc
        · exact h.symm
        · have h₁ : entryRank a ≤ entryRank c := hs₁'.1 c hc
          have h₂ : entryRank c ≤ entryRank a := hs₂'.1 a ha
          have heq : entryRank a = entryRank c := le_antisymm h₁ h₂
          simp only [List.map_cons, List.nodup_cons] at hn
          have hmem : entryRank a ∈ List.map entryRank t₁ := by
            rw [heq]
            exact List.mem_map_of_mem entryRank hc
          exact absurd hmem hn.1
      subst hac
      simp only [List.map_cons, List.nodup_cons] at hn
      rw [ih t₂ hp.cons_inv hs₁'.2 hs₂'.2 hn.2]

/-- C2: insertion-rank invariant.  Every value `score_mol` stores is a
(score, rank) pair whose rank is the buffer size before insertion plus one (by
definition of `scoreMolLoop`); consequently, after any sequence of score_mol
calls starting from the empty buffer, the ranks held in a buffer of n entries
are exactly the integers 1..n (a permutation of `range' 1 n`), all distinct,
and sorting the buffer by rank ascending yields exactly the buffer in
first-insertion order (the buffer the un-re-sorted loop run over the
concatenated batches would build, whose entry at index i carries rank i+1). -/
theorem insertion_rank_invariant {α : Type} (f : α → String) (g : String → Score)
    (batches : List (List α)) :
    ((runScoreMol f g [] batches).map entryRank).Perm
        (List.range' 1 (runScoreMol f g [] batches).length)
    ∧ ((runScoreMol f g [] batches).map entryRank).Nodup
    ∧ ((scoreMolLoop f g [] batches.flatten).buffer.map entryRank =
        List.range' 1 (scoreMolLoop f g [] batches.flatten).buffer.length)
    ∧ (runScoreMol f g [] batches).mergeSort rankAscLe =
        (scoreMolLoop f g [] batches.flatten).buffer := by
  have hperm : (runScoreMol f g [] batches).Perm
      (scoreMolLoop f g [] batches.flatten).buffer :=
    runScoreMol_perm_loop f g batches [] [] (List.Perm.refl []) (by simp [bufKeys])
  have hpos : ranksPositional (scoreMolLoop f g [] batches.flatten).buffer :=
    ranksPositional_loop f g batches.flatten [] ranksPositional_nil
  have hloopmap := map_rank_of_positional hpos
  have hrankperm : ((runScoreMol f g [] batches).map entryRank).Perm
      (List.range' 1 (runScoreMol f g [] batches).length) := by
    rw [hperm.length_eq, ← hloopmap]
    exact hperm.map entryRank
  have hnodup : ((runScoreMol f g [] batches).map entryRank).Nodup :=
    hrankperm.nodup_iff.mpr (List.nodup_range' _ _)
  refine ⟨hrankperm, hnodup, hloopmap, ?_⟩
  apply eq_of_perm_rank_sorted
  · exact ((runScoreMol f g [] batches).mergeSort_perm rankAscLe).trans hperm
  · exact sorted_by_rank_of_mergeSort _
  · exact pairwise_rank_of_positional hpos
  · have hmap : (((runScoreMol f g [] batches).mergeSort rankAscLe).map entryRank).Perm
        ((runScoreMol f g [] batches).map entryRank) :=
      ((runScoreMol f g [] batches).mergeSort_perm rankAscLe).map entryRank
    exact hmap.nodup_iff.mpr hnodup

/-! Production / optimize (C7). -/

theorem productionLoop_length (opt : ℕ → Buffer → Buffer) (od mo : String) :
    ∀ (seeds : List ℕ) (b : Buffer),
      (productionLoop opt od mo b seeds).1.length = seeds.length := by
  intro seeds
  induction seeds with
  | nil => intro b; rfl
  | cons s rest ih => intro b; simp [productionLoop, ih]

theorem productionLoop_seeds (opt : ℕ → Buffer → Buffer) (od mo : String) :
    ∀ (seeds : List ℕ) (b : Buffer),
      (productionLoop opt od mo b seeds).1.map OptimizeRun.seed = seeds := by
  intro seeds
  induction seeds with
  | nil => intro b; rfl
  | cons s rest ih => intro b; simp [productionLoop, optimize, ih]

theorem productionLoop_starts (opt : ℕ → Buffer → Buffer) (od mo : String) :
    ∀ (seeds : List ℕ), ∀ r ∈ (productionLoop opt od mo [] seeds).1,
      r.startBuffer = [] := by
  intro seeds
  induction seeds with
  | nil => intro r hr; simp [productionLoop] at hr
  | cons s rest ih =>
    intro r hr
    simp only [productionLoop, List.mem_cons] at hr
    rcases hr with hr | hr
    · subst hr; rfl
    · exact ih r hr

theorem productionLoop_final (opt : ℕ → Buffer → Buffer) (od mo : String) :
    ∀ (seeds : List ℕ), (productionLoop opt od mo [] seeds).2 = [] := by
  intro seeds
  induction seeds with
  | nil => rfl
  | cons s rest ih => simpa [productionLoop] using ih

/-- C7 counterexample: the claim says production calls optimize exactly num_runs
times for every num_runs, but the fixed prime list has only 25 elements, so with
num_runs = 26 (and the search abstracted as the identity) only 25 optimize calls
are made. -/
theorem production_calls_counterexample :
    ¬ (production (fun _ b => b) "out" "dog_gen_qed" [] 26).1.length = 26 := by
  have h := productionLoop_length (fun _ b => b) "out" "dog_gen_qed"
    (seeds_primes.take 26) []
  unfold production
  rw [h]
  decide

/-- C7 amended: production calls optimize once per element of
`seeds_primes[:num_runs]`, i.e. min(num_runs, 25) times, with those primes as
seeds in order; the buffer is reset to empty at the end of every optimize call
(whose log_result and save_result artifacts are computed from the buffer the
search produced, before the reset), so starting production from the empty
buffer every run starts with an empty score cache and production ends with an
empty one. -/
theorem production_run_isolation (opt : ℕ → Buffer → Buffer) (od mo : String)
    (num_runs : ℕ) :
    (production opt od mo [] num_runs).1.length = min num_runs 25
    ∧ (production opt od mo [] num_runs).1.map OptimizeRun.seed = seeds_primes.take num_runs
    ∧ (∀ r ∈ (production opt od mo [] num_runs).1, r.startBuffer = [])
    ∧ (production opt od mo [] num_runs).2 = []
    ∧ (∀ (b : Buffer) (s : ℕ), (optimize opt od mo b s).2 = [])
    ∧ (∀ (b : Buffer) (s : ℕ),
        (optimize opt od mo b s).1.levels = logResultLevels (opt s b)
        ∧ (optimize opt od mo b s).1.saved =
            save_result (opt s b) od (some (mo ++ "_" ++ toString s))) := by
  refine ⟨?_, productionLoop_seeds opt od mo _ _, productionLoop_starts opt od mo _,
    productionLoop_final opt od mo _, fun b s => rfl, fun b s => ⟨rfl, rfl⟩⟩
  unfold production
  rw [productionLoop_length, List.length_take]
  rfl

/-! The DoG_Gen_Optimizer glue (C8) and load_smiles_from_file (C9). -/

/-- C8: the claim says DoG_Gen_Optimizer._optimize attaches the oracle, loads the
checkpoint and delegates to DogGenHillclimber.run_hillclimbing; but on an
optimizer built by `__init__` (which never assigns `self.oracle`) its first
statement `self.oracle.assign_evaluator(oracle)` raises AttributeError, so the
delegation is never reached.  Evaluated here on a freshly constructed
DoG_Gen_Optimizer with a concrete config. -/
theorem dog_gen_optimize_attribute_error :
    dog_gen_init ["C"] (fun _ => []) ⟨1, none, "out"⟩ =
      Except.ok ⟨"dog_gen", [], ["C"], none⟩
    ∧ (dog_gen_init ["C"] (fun _ => []) ⟨1, none, "out"⟩).map
        (fun st => dog_gen_optimize (fun _ => ([] : List Unit)) (fun _ => []) st ⟨2, 3, 4⟩) =
      Except.ok (Except.error PyErr.attributeError) :=
  ⟨rfl, rfl⟩

/-- C9: load_smiles_from_file opens the undefined module-level name `smi_file`
instead of its `file_name` parameter, so it raises NameError for every argument;
hence constructing a BaseOptimizer with `args.smi_file` set always fails before
reading any file, and the smi_file branch of `__init__` cannot complete without
error. -/
theorem load_smiles_nameError (onResolved : Unit → List String) (file_name : String) :
    load_smiles_from_file onResolved file_name = Except.error PyErr.nameError
    ∧ (∀ (zinc : List String) (p : String) (n : ℕ) (od : String),
        base_init zinc onResolved ⟨n, some p, od⟩ = Except.error PyErr.nameError) := by
  have h : ∀ fn : String, load_smiles_from_file onResolved fn =
      Except.error PyErr.nameError := by
    intro fn
    unfold load_smiles_from_file
    have hmem : "smi_file" ∉ optimizer_module_globals := by decide
    simp [hmem]
  refine ⟨h file_name, fun zinc p n od => ?_⟩
  have hshape : base_init zinc onResolved ⟨n, some p, od⟩ =
      (load_smiles_from_file onResolved p).map
        (fun smis => ⟨"Default", [], smis, none⟩) := rfl
  rw [hshape, h p]
  rfl

/-! log_result with fewer than 100 molecules, and _analyze_results (C10). -/

theorem top100Rows_error_of_missing (l : Buffer) :
    ∀ (idxs : List ℕ), (∃ i ∈ idxs, l[i]? = none) →
      top100Rows l idxs = Except.error PyErr.indexError := by
  intro idxs
  induction idxs with
  | nil =>
    rintro ⟨i, hi, _⟩
    simp at hi
  | cons j rest ih =>
    rintro ⟨i, hi, hnone⟩
    rcases List.mem_cons.mp hi with hij | hi'
    · subst hij
      simp [top100Rows, hnone]
    · cases hj : l[j]? with
      | none => simp [top100Rows, hj]
      | some e =>
        simp only [top100Rows, hj]
        rw [ih ⟨i, hi', hnone⟩]
        rfl

theorem logResultLast_eq (b : Buffer) :
    (logResultLevels b).getLastD [] =
      ((logResultResults b).take 10000).mergeSort scoreDescLe := by
  simp [logResultLevels, log_num_oracles]

theorem logResultResults_of_small {b : Buffer} (h : ¬ 10000 < b.length) :
    logResultResults b = b.mergeSort rankAscLe := by
  unfold logResultResults
  rw [if_neg]
  simpa using h

/-- C10: log_result requires at least 100 scored molecules.  With fewer than 100
buffer entries the top-100 table indexes past the end of the last level and is
an IndexError; _analyze_results computes %Pass as len(smis_pass)/100 with the
constant denominator 100 no matter how many results it was given; and its Top-1
Pass metric, a max over the scores of the filter-passing molecules, is
undefined (none) when no molecule passes the filter. -/
theorem log_result_under_100 :
    (∀ b : Buffer, b.length < 100 →
        logResultTop100Rows b = Except.error PyErr.indexError)
    ∧ (∀ (filt : String → Bool) (sa : String → Score) (div : List String → Score)
        (results : Buffer),
        (analyze_results filt sa div results).percentPass =
          (((((results.take 100).map entryKey).filter filt).length : Score)) / 100)
    ∧ (∀ (filt : String → Bool) (sa : String → Score) (div : List String → Score)
        (results : Buffer),
        ((results.take 100).map entryKey).filter filt = [] →
          (analyze_results filt sa div results).top1Pass = none) := by
  refine ⟨?_, fun filt sa div results => rfl, ?_⟩
  · intro b hb
    unfold logResultTop100Rows
    apply top100Rows_error_of_missing
    have h1 : ((logResultLevels b).getLastD []).length = b.length := by
      rw [logResultLast_eq, List.length_mergeSort, List.length_take,
        logResultResults_of_small (by omega), List.length_mergeSort]
      omega
    refine ⟨99, by simp, ?_⟩
    apply List.getElem?_eq_none
    omega
  · intro filt sa div results h
    show npMax (((((results.take 100).map entryKey).filter filt)).filterMap
        (fun s => (lookupBuf s (results.take 100)).map Prod.fst)) = none
    rw [h]
    rfl

/-- witness for C10 at a one-entry buffer and a filter passing nothing. -/
theorem log_result_under_100_witness :
    (([("C", (1 : Score), 1)] : Buffer).length < 100
      ∧ logResultTop100Rows [("C", (1 : Score), 1)] = Except.error PyErr.indexError)
    ∧ (((([("C", (1 : Score), 1)] : Buffer).take 100).map entryKey).filter (fun _ => false) = []
      ∧ (analyze_results (fun _ => false) (fun _ => 0) (fun _ => 0)
          [("C", (1 : Score), 1)]).top1Pass = none) :=
  ⟨⟨by decide, log_result_under_100.1 [("C", (1 : Score), 1)] (by decide)⟩,
   ⟨by decide, log_result_under_100.2.2 (fun _ => false) (fun _ => 0) (fun _ => 0)
      [("C", (1 : Score), 1)] (by decide)⟩⟩

end MolOpt
